import Mathlib

/-!
Verification development for the git-analyzer repository.

The embedding below models, from the source:
* `src/github/utils.py` — `get_page_number` together with the behaviour of the
  `urllib.parse` calls it makes (`urlparse(url).query`, `parse_qsl`) and of
  Python's `int()`;
* `src/github/handler.py` — `GithubCommit.get_repo_commits`,
  `GithubCommit._get_next_pages` and `GithubCommit._parse_link_header`
  (including the regex scan performed by `re.findall`);
* `src/github/gui.py` — the live `GitRepo` class: `_decode_blob`,
  `get_status`, `combine_all_blobs`, and the repository-selection task
  `_task_load_commits` that constructs a fresh `GithubCommit` handler.

HTTP responses and GitPython diff objects are external capabilities; they are
modelled as plain data (`GHResponse`, `DiffObj`, `RepoSnapshot`) whose fields
are exactly what the source reads from them.
-/

namespace GitAnalyzer

set_option maxRecDepth 100000

/-! ### Python string and URL helpers (behaviour of the library calls made by src/github/utils.py) -/

/-- Python whitespace: the character class matched by `\s` and stripped by
`int()` (space, tab, newline, carriage return, vertical tab, form feed). -/
def pyIsSpace (c : Char) : Bool :=
  c == ' ' || c == '\t' || c == '\n' || c == '\r' || c == Char.ofNat 11 || c == Char.ofNat 12

/-- Value of an unsigned decimal digit string. -/
def digitsVal (ds : List Char) : Nat :=
  ds.foldl (fun a c => a * 10 + (c.toNat - 48)) 0

/-- Python `int()` on an already-stripped string after the optional sign:
a nonempty run of decimal digits, otherwise a ValueError (modelled as `none`).
CPython's underscore digit grouping and non-ASCII digits are not modelled;
nothing in this development exercises them. -/
def digitsToInt (ds : List Char) : Option Int :=
  if ds.isEmpty then none
  else if ds.all (fun c => c.isDigit) then some ((digitsVal ds : Nat) : Int)
  else none

/-- Python `int(str)`: strip whitespace, optional sign, decimal digits;
`none` models ValueError. -/
def pyInt (s : String) : Option Int :=
  match ((s.data.dropWhile pyIsSpace).reverse.dropWhile pyIsSpace).reverse with
  | '+' :: ds => digitsToInt ds
  | '-' :: ds => (digitsToInt ds).map (fun n => -n)
  | ds => digitsToInt ds

/-- Split at the first occurrence of `sep`, Python `str.split(sep, 1)`;
`none` when `sep` does not occur. -/
def splitFirst (sep : Char) : List Char → Option (List Char × List Char)
  | [] => none
  | c :: cs =>
    if c = sep then some ([], cs)
    else
      match splitFirst sep cs with
      | none => none
      | some (a, b) => some (c :: a, b)

/-- Python `str.split(sep)`: every field, empty fields kept
(`"".split(sep) == [""]`). -/
def splitEvery (sep : Char) : List Char → List (List Char)
  | [] => [[]]
  | c :: cs =>
    match splitEvery sep cs with
    | [] => [[]]
    | f :: fs => if c = sep then [] :: f :: fs else (c :: f) :: fs

/-- The `'+'` to space replacement performed by `urllib.parse.parse_qsl`. -/
def plusToSpace (l : List Char) : List Char :=
  l.map (fun c => if c = '+' then ' ' else c)

/-- The query component as extracted by `urllib.parse.urlparse(url).query`:
the text after the first question mark of the part before the first
hash mark. -/
def urlQuery (url : String) : List Char :=
  let pre :=
    match splitFirst '#' url.data with
    | some (a, _) => a
    | none => url.data
  match splitFirst '?' pre with
  | some (_, q) => q
  | none => []

/-- `urllib.parse.parse_qsl` with its default options: fields split on
ampersands, a field without an equals sign is dropped, a field with an empty
value is dropped (`keep_blank_values=False`), plus signs become spaces.
Percent-escapes are not decoded; no URL in this development carries any. -/
def parse_qsl (q : List Char) : List (String × String) :=
  (splitEvery '&' q).filterMap (fun nv =>
    match splitFirst '=' nv with
    | none => none
    | some (n, v) =>
      if v.isEmpty then none
      else some ((plusToSpace n).asString, (plusToSpace v).asString))

/-- `dict(pairs)[k]`: with duplicate keys the last binding wins. -/
def lookupLast (pairs : List (String × String)) (k : String) : Option String :=
  ((pairs.filter (fun kv => kv.1 == k)).getLast?).map (fun kv => kv.2)

/-- `get_page_number` (src/github/utils.py lines 3-6):
`int(dict(parse_qsl(urlparse(url).query))["page"])`. `none` models the
KeyError (missing parameter) or ValueError (non-integer value) that the
caller catches. -/
def get_page_number (url : String) : Option Int :=
  (lookupLast (parse_qsl (urlQuery url)) "page").bind pyInt

/-! ### The Link-header regex scan (src/github/handler.py line 202) -/

/-- One attempted match of the pattern `<([^>]+)>;\s*rel="([^"]+)"` at the
head of the input. On success, returns the two capture groups and the input
remaining after the match. Both captured classes exclude the literal that
follows them, so the greedy runs below never backtrack and the scan is
exactly the regex. -/
def scanMatch : List Char → Option (String × String × List Char)
  | '<' :: cs =>
    (match cs.takeWhile (fun c => c != '>'), cs.dropWhile (fun c => c != '>') with
      | u0 :: us, '>' :: ';' :: cs2 =>
        (match cs2.dropWhile pyIsSpace with
          | 'r' :: 'e' :: 'l' :: '=' :: '"' :: cs4 =>
            (match cs4.takeWhile (fun c => c != '"'), cs4.dropWhile (fun c => c != '"') with
              | r0 :: rs, '"' :: cs5 => some ((u0 :: us).asString, (r0 :: rs).asString, cs5)
              | _, _ => none)
          | _ => none)
      | _, _ => none)
  | _ => none

/-- Iteration core for `re.findall`: at each position try a match; on success
emit the groups and continue after the match, otherwise advance one
character. Every successful match consumes at least one character, so the
input length bounds the number of iterations and the fuel below is never
exhausted. -/
def findAllGo : Nat → List Char → List (String × String)
  | 0, _ => []
  | _ + 1, [] => []
  | fuel + 1, c :: cs =>
    match scanMatch (c :: cs) with
    | some (u, r, rem) => (u, r) :: findAllGo fuel rem
    | none => findAllGo fuel cs

/-- `re.findall` of the Link-header pattern over a character list:
left-to-right, non-overlapping matches. -/
def findAllChars (cs : List Char) : List (String × String) :=
  findAllGo cs.length cs

/-- `re.findall(r'<([^>]+)>;\s*rel="([^"]+)"', link_header)`. -/
def findAll (s : String) : List (String × String) :=
  findAllChars s.data

/-- `rel_links.get(rel)` for the dict comprehension
`{rel: url for url, rel in findall}`: the last occurrence of a relation
name wins. -/
def relLinks (pairs : List (String × String)) (rel : String) : Option String :=
  ((pairs.filter (fun p => p.2 == rel)).getLast?).map (fun p => p.1)

/-- `GithubCommit._parse_link_header` (src/github/handler.py lines 191-217). -/
def parse_link_header (link : Option String) : Option (Int × Int) :=
  match link with
  | none => none
  | some h =>
    if h = "" then none
    else
      match relLinks (findAll h) "next", relLinks (findAll h) "last" with
      | some nu, some lu =>
        if nu = "" ∨ lu = "" then none
        else
          match get_page_number nu, get_page_number lu with
          | some a, some b => some (a, b)
          | _, _ => none
      | _, _ => none

/-- One segment of a Link header: `<url>; rel="relation"`. -/
def linkSeg (u rel : String) : String :=
  "<" ++ u ++ ">; rel=\"" ++ rel ++ "\""

/-- The two-relation header form of the claims:
`<urlA>; rel="next", <urlB>; rel="last"`. -/
def mkHeader2 (u1 u2 : String) : String :=
  linkSeg u1 "next" ++ ", " ++ linkSeg u2 "last"

/-- A header in which the `next` relation occurs twice before a `last`
relation. -/
def mkHeader3 (u1 u2 u3 : String) : String :=
  linkSeg u1 "next" ++ ", " ++ linkSeg u2 "next" ++ ", " ++ linkSeg u3 "last"

/-! ### The commit-history fetcher (src/github/handler.py lines 124-189) -/

/-- The `author` sub-object of a commit entry. -/
structure AuthorData where
  date : Option String
deriving DecidableEq

/-- The `commit` sub-object of a commit entry. -/
structure CommitData where
  message : Option String
  author : Option AuthorData
deriving DecidableEq

/-- One element of a commit-page JSON array; the source only reads its
`commit` field. -/
structure CommitEntry where
  commit : Option CommitData
deriving DecidableEq

/-- A commit-page response body: either the sentinel object carrying a
`status` field (the GitHub "Git Repository is empty" answer) or a commit
array. -/
inductive GHBody where
  | statusSentinel : GHBody
  | commits : List CommitEntry → GHBody
deriving DecidableEq

/-- What `get_repo_commits` reads from one HTTP response: the status code,
the JSON body, and the `Link` header. -/
structure GHResponse where
  statusCode : Nat
  body : GHBody
  link : Option String
deriving DecidableEq

/-- The exceptions the fetcher can raise: `EmptyCommitHistory`
(src/github/exceptions.py), the `AttributeError` from
`commit_data.get("author", None).get(...)` on a missing author, and
CPython's RecursionError, reachable only if a parsed next page is again
page 1 (modelled via the fuel argument below). -/
inductive PyError where
  | emptyCommitHistory : PyError
  | attributeError : PyError
  | recursionLimit : PyError
deriving DecidableEq

/-- The mutable state of a `GithubCommit` instance that `get_repo_commits`
touches, plus an instrumentation trace `pages` recording every HTTP request
issued as a (page, per_page) pair, in order. -/
structure GCState where
  commit_list : Option (List String)
  next_pages : Option (List Nat)
  pages : List (Int × Nat)
deriving DecidableEq

/-- Python `f"{x}"` on an optional string: `None` prints as "None". -/
def pyStr : Option String → String
  | none => "None"
  | some s => s

/-- The loop body of `get_repo_commits` over the commit entries: entries
without a `commit` sub-object are skipped, an entry whose `commit` lacks an
`author` raises AttributeError (entries appended so far are kept), otherwise
`f"{commit_date}/{commit_message}"` is appended. -/
def processEntries : List String → List CommitEntry → List String × Option PyError
  | cl, [] => (cl, none)
  | cl, e :: es =>
    match e.commit with
    | none => processEntries cl es
    | some cd =>
      match cd.author with
      | none => (cl, some PyError.attributeError)
      | some a => processEntries (cl ++ [pyStr a.date ++ "/" ++ pyStr cd.message]) es

/-- The record(s) a single entry contributes to the commit list. -/
def entryRecords (e : CommitEntry) : List String :=
  match e.commit with
  | none => []
  | some cd =>
    match cd.author with
    | none => []
    | some a => [pyStr a.date ++ "/" ++ pyStr cd.message]

/-- Concatenation of the images of a list-valued function. -/
def catMap {α β : Type} (f : α → List β) : List α → List β
  | [] => []
  | a :: l => f a ++ catMap f l

/-- The records contributed by a full page of entries. -/
def records (es : List CommitEntry) : List String :=
  catMap entryRecords es

/-- An entry the loop handles without raising: either no `commit` sub-object
(skipped) or a present `author`. -/
def entryWF (e : CommitEntry) : Bool :=
  match e.commit with
  | none => true
  | some cd => cd.author.isSome

/-- An entry that yields exactly one record: both `commit` and `author`
present. -/
def entryFull (e : CommitEntry) : Bool :=
  match e.commit with
  | none => false
  | some cd => cd.author.isSome

/-- A body the fetch loop processes without raising. -/
def bodyWF : GHBody → Bool
  | GHBody.statusSentinel => false
  | GHBody.commits es => es.all entryWF

/-- The records a body contributes. -/
def bodyRecords : GHBody → List String
  | GHBody.statusSentinel => []
  | GHBody.commits es => records es

/-- The records one page of a given server contributes: nothing on a
non-success status. -/
def pageRecords (srv : Int → Nat → GHResponse) (pp : Nat) (p : Int) : List String :=
  if (srv p pp).statusCode = 200 then bodyRecords (srv p pp).body else []

/-- A page that, if it answers 200, carries a commit array whose entries the
loop handles without raising. -/
def pageBenign (srv : Int → Nat → GHResponse) (pp : Nat) (p : Int) : Prop :=
  (srv p pp).statusCode = 200 → bodyWF (srv p pp).body = true

/-- Whether a page is benign is decidable, so witnesses can be checked by
evaluation. -/
instance pageBenignDec (srv : Int → Nat → GHResponse) (pp : Nat) (p : Int) :
    Decidable (pageBenign srv pp p) :=
  if h : (srv p pp).statusCode = 200 then
    if hb : bodyWF (srv p pp).body = true then Decidable.isTrue (fun _ => hb)
    else Decidable.isFalse (fun hf => hb (hf h))
  else Decidable.isTrue (fun h200 => absurd h200 h)

/-- Python `range(a, b)` over integers. -/
def pyRange (a b : Int) : List Int :=
  (List.range (b - a).toNat).map (fun i => a + Int.ofNat i)

/-- The `for page in range(next_page, last_page + 1)` loop of
`_get_next_pages`: return values of the inner calls are ignored, exceptions
abort the loop and propagate. -/
def run_pages (fetch : Int → GCState → Except PyError (Option (List String)) × GCState) :
    List Int → GCState → Except PyError Unit × GCState
  | [], st => (Except.ok (), st)
  | p :: ps, st =>
    match fetch p st with
    | (Except.error e, st1) => (Except.error e, st1)
    | (Except.ok _, st1) => run_pages fetch ps st1

/-- `GithubCommit._get_next_pages` (src/github/handler.py lines 176-189):
parse the Link header; when it yields a page range, fetch every page from
next through last inclusive. -/
def get_next_pages (fetch : Int → GCState → Except PyError (Option (List String)) × GCState)
    (link : Option String) (st : GCState) : Except PyError Unit × GCState :=
  match parse_link_header link with
  | none => (Except.ok (), st)
  | some (n, l) => run_pages fetch (pyRange n (l + 1)) st

/-- The body of `GithubCommit.get_repo_commits` (src/github/handler.py lines
132-173) for one call, with `recur` standing for the recursive calls made
through `_get_next_pages`. A non-success status falls off the end of the
function and returns `None`. -/
def get_repo_commits_step (srv : Int → Nat → GHResponse)
    (recur : Int → Nat → GCState → Except PyError (Option (List String)) × GCState)
    (page : Int) (per_page : Nat) (st : GCState) :
    Except PyError (Option (List String)) × GCState :=
  let resp := srv page per_page
  let st1 : GCState := { st with pages := st.pages ++ [(page, per_page)] }
  if resp.statusCode = 200 then
    match resp.body with
    | GHBody.statusSentinel => (Except.error PyError.emptyCommitHistory, st1)
    | GHBody.commits entries =>
      match processEntries (st1.commit_list.getD []) entries with
      | (cl1, some e) => (Except.error e, { st1 with commit_list := some cl1 })
      | (cl1, none) =>
        let st3 : GCState := { st1 with commit_list := some cl1 }
        if page = 1 then
          let st4 : GCState := { st3 with next_pages := some [] }
          match get_next_pages (fun p s => recur p per_page s) resp.link st4 with
          | (Except.error e, st5) => (Except.error e, st5)
          | (Except.ok _, st5) => (Except.ok st5.commit_list, st5)
        else (Except.ok st3.commit_list, st3)
  else (Except.ok none, st1)

/-- `GithubCommit.get_repo_commits`. The fuel argument bounds the recursion
depth through `_get_next_pages`; the source recursion is unbounded only when
a parsed next page is again page 1, in which case CPython would raise
RecursionError, modelled by `recursionLimit`. Any fuel of at least 2 is
exact whenever the parsed next page is at least 2. -/
def get_repo_commits (srv : Int → Nat → GHResponse) (fuel : Nat) :
    Int → Nat → GCState → Except PyError (Option (List String)) × GCState :=
  Nat.rec (motive := fun _ => Int → Nat → GCState → Except PyError (Option (List String)) × GCState)
    (fun _ _ st => (Except.error PyError.recursionLimit, st))
    (fun _ recur => get_repo_commits_step srv recur)
    fuel

/-- The state of a freshly constructed `GithubCommit()` dataclass:
`commit_list=None`, `next_pages=None`, and no request issued yet. -/
def initGC : GCState :=
  { commit_list := none, next_pages := none, pages := [] }

/-- `gui._task_load_commits` (src/github/gui.py lines 780-783): every
repository selection constructs a fresh `GithubCommit()` and calls
`get_repo_commits` with the dataclass defaults page=1, per_page=10. -/
def task_load_commits (srv : Int → Nat → GHResponse) (fuel : Nat) :
    Except PyError (Option (List String)) × GCState :=
  get_repo_commits srv fuel 1 10 initGC

/-! ### The local repository inspector (src/github/gui.py lines 80-156) -/

/-- A blob as the source reads it: `text = some s` when
`data_stream.read().decode('utf-8')` yields `s`, `text = none` when the
content is binary (the decode raises UnicodeDecodeError). -/
structure Blob where
  text : Option String
deriving DecidableEq

/-- A GitPython diff object, restricted to the fields the source reads.
Per the conventions documented in the source comments (gui.py lines 90 and
94, handler.py lines 340-344 and 354-355): a newly added file has no
`a_blob` (no before content), a deleted file has no `b_blob`; `a_path` is
the source path, `b_path` the destination path. -/
structure DiffObj where
  a_path : Option String
  b_path : Option String
  a_blob : Option Blob
  b_blob : Option Blob
  change_type : String
deriving DecidableEq

/-- The string a blob side decodes to in `GitRepo._decode_blob` (src/github/
gui.py lines 85-95): a missing blob raises AttributeError and binary content
raises UnicodeDecodeError, both caught and turned into the empty string. -/
def blobText : Option Blob → String
  | none => ""
  | some b =>
    match b.text with
    | none => ""
    | some s => s

/-- `GitRepo._decode_blob`: (old content from a_blob, new content from
b_blob). -/
def decode_blob (d : DiffObj) : String × String :=
  (blobText d.a_blob, blobText d.b_blob)

/-- Truthiness of an optional string: Python treats both `None` and the
empty string as missing. -/
def pyTruthy : Option String → Option String
  | none => none
  | some s => if s = "" then none else some s

/-- The key `diff.b_path or diff.a_path` combined with the subsequent
`if not file_path` test of `combine_all_blobs`: the destination path when
truthy, else the source path when truthy, else no key. -/
def pathKey (d : DiffObj) : Option String :=
  match pyTruthy d.b_path with
  | some p => some p
  | none => pyTruthy d.a_path

/-- Python dict assignment `m[k] = v`: replace the binding in place when the
key exists, append otherwise. -/
def dictInsert {α : Type} : List (String × α) → String → α → List (String × α)
  | [], k, v => [(k, v)]
  | (k1, v1) :: rest, k, v =>
    if k1 = k then (k1, v) :: rest
    else (k1, v1) :: dictInsert rest k v

/-- `GitRepo.combine_all_blobs` (src/github/gui.py lines 127-138) over a list
of staged diff objects: build the path-to-(old, new) mapping, silently
skipping (`continue`) any diff with no usable path. -/
def combine_all_blobs (staged_diffs : List DiffObj) : List (String × (String × String)) :=
  staged_diffs.foldl
    (fun acc d =>
      match pathKey d with
      | none => acc
      | some k => dictInsert acc k (decode_blob d))
    []

/-- Claim C8's description of `build_staged_diff_set`, stated in its own
words for comparison with `combine_all_blobs`: every diff is keyed by the
destination path, else the source path, and the operation fails validation
(`none`) when neither path is available for some diff. (The failure branch
matches the abandoned handler-module variant `GitRepo._combine_all_blobs`,
src/github/handler.py lines 349-364, which raises ValueError there; the live
gui-module code skips the diff instead.) -/
def build_staged_diff_set_claim (staged_diffs : List DiffObj) :
    Option (List (String × (String × String))) :=
  staged_diffs.foldl
    (fun acc d =>
      match acc with
      | none => none
      | some m =>
        match pathKey d with
        | none => none
        | some k => some (dictInsert m k (decode_blob d)))
    (some [])

/-- One row of the status lists: `{"file_name": ..., "change_type": ...}`. -/
structure FileEntry where
  file_name : Option String
  change_type : String
deriving DecidableEq

/-- The value returned by `get_status`. -/
structure StatusResult where
  staged : List FileEntry
  unstaged : List FileEntry
deriving DecidableEq

/-- What `get_status` reads from a valid local repository handle: the staged
diffs `repo.index.diff(repo.head.commit)`, the unstaged diffs
`repo.index.diff(None)`, and `repo.untracked_files`. (The path-validity and
repository-validity errors raised before these reads are outside the claims
formalised here.) -/
structure RepoSnapshot where
  stagedDiffs : List DiffObj
  unstagedDiffs : List DiffObj
  untracked_files : List String

/-- The row built from one diff object. -/
def toEntry (d : DiffObj) : FileEntry :=
  { file_name := d.a_path, change_type := d.change_type }

/-- The untracked-files loop of `get_status` (src/github/gui.py lines
120-123): append each untracked path with the marker "A" unless some row of
the unstaged list already carries that file name. -/
def addUntracked : List String → List FileEntry → List FileEntry
  | [], acc => acc
  | fp :: rest, acc =>
    if acc.any (fun f => f.file_name == some fp) then addUntracked rest acc
    else addUntracked rest (acc ++ [{ file_name := some fp, change_type := "A" }])

/-- `GitRepo.get_status` (src/github/gui.py lines 97-125) on a valid
repository; the second component is the staged diff list the method caches
in `self.staged_diffs` for later use by `combine_all_blobs`. -/
def get_status (r : RepoSnapshot) : StatusResult × List DiffObj :=
  ({ staged := r.stagedDiffs.map toEntry,
     unstaged := addUntracked r.untracked_files (r.unstagedDiffs.map toEntry) },
   r.stagedDiffs)

/-- Number of rows of a status list carrying a given file name. -/
def countFile (l : List FileEntry) (fp : String) : Nat :=
  (l.filter (fun f => f.file_name == some fp)).length


/-! ### Concrete servers and diffs used by the witnesses -/

/-- A well-formed commit entry with the given date and message. -/
def mkEntry (d m : String) : CommitEntry :=
  { commit := some { message := some m, author := some { date := some d } } }

/-- `k` well-formed entries with numbered messages. -/
def mkEntries (pre : String) (k : Nat) : List CommitEntry :=
  (List.range k).map (fun i => mkEntry "2024-01-01T00:00:00Z" (pre ++ toString i))

/-- The Link header a 3-page history answers on page 1. -/
def linkHeader3 : String :=
  "<https://api.github.com/repositories/1/commits?per_page=10&page=2>; rel=\"next\", <https://api.github.com/repositories/1/commits?per_page=10&page=3>; rel=\"last\""

/-- A 3-page mock commit history: page size 10, pages 1-3, 25 commits. -/
def mockSrv3 (p : Int) (_pp : Nat) : GHResponse :=
  if p = 1 then { statusCode := 200, body := GHBody.commits (mkEntries "page1-" 10), link := some linkHeader3 }
  else if p = 2 then { statusCode := 200, body := GHBody.commits (mkEntries "page2-" 10), link := none }
  else if p = 3 then { statusCode := 200, body := GHBody.commits (mkEntries "page3-" 5), link := none }
  else { statusCode := 404, body := GHBody.commits [], link := none }

/-- The per-page entries of `mockSrv3` beyond page 1. -/
def mockEs3 (p : Int) : List CommitEntry :=
  if p = 2 then mkEntries "page2-" 10 else mkEntries "page3-" 5

/-- A single-page mock history (no Link header). -/
def mockSrvOne (p : Int) (_pp : Nat) : GHResponse :=
  if p = 1 then { statusCode := 200, body := GHBody.commits (mkEntries "solo-" 3), link := none }
  else { statusCode := 404, body := GHBody.commits [], link := none }

/-- A mock repository with no commits: page 1 carries the status sentinel. -/
def mockSrvEmpty (_p : Int) (_pp : Nat) : GHResponse :=
  { statusCode := 200, body := GHBody.statusSentinel, link := none }

/-- A 3-page mock whose page 2 fails with a 500 status. -/
def mockSrvFail (p : Int) (_pp : Nat) : GHResponse :=
  if p = 1 then { statusCode := 200, body := GHBody.commits (mkEntries "page1-" 10), link := some linkHeader3 }
  else if p = 2 then { statusCode := 500, body := GHBody.commits [], link := none }
  else if p = 3 then { statusCode := 200, body := GHBody.commits (mkEntries "page3-" 5), link := none }
  else { statusCode := 404, body := GHBody.commits [], link := none }

/-- An entry whose `commit` sub-object is present but has no `author`. -/
def authorlessEntry : CommitEntry :=
  { commit := some { message := some "orphan", author := none } }

/-- A mock page whose second entry lacks the author field. -/
def mockSrvNoAuthor (_p : Int) (_pp : Nat) : GHResponse :=
  { statusCode := 200,
    body := GHBody.commits [mkEntry "2024-01-02T00:00:00Z" "ok", authorlessEntry],
    link := none }

/-- A mock page whose entries all lack the `commit` sub-object. -/
def mockSrvNoCommit (_p : Int) (_pp : Nat) : GHResponse :=
  { statusCode := 200,
    body := GHBody.commits [{ commit := none }, { commit := none }],
    link := none }

/-- A diff with no usable path on either side. -/
def noPathDiff : DiffObj :=
  { a_path := none, b_path := none, a_blob := none, b_blob := none, change_type := "M" }

/-- A diff carrying both paths and no retrievable blob. -/
def diffDestW : DiffObj :=
  { a_path := some "y", b_path := some "x", a_blob := none, b_blob := none, change_type := "M" }

/-- A diff with only a source path and no retrievable blob. -/
def diffSrcW : DiffObj :=
  { a_path := some "y", b_path := none, a_blob := none, b_blob := none, change_type := "M" }

/-- A newly added staged file `c.txt` with content "new content". -/
def dAddW : DiffObj :=
  { a_path := none, b_path := some "c.txt", a_blob := none,
    b_blob := some { text := some "new content" }, change_type := "A" }

/-- A staged deletion of `d.txt` whose old content was "old content". -/
def dDelW : DiffObj :=
  { a_path := some "d.txt", b_path := none, a_blob := some { text := some "old content" },
    b_blob := none, change_type := "D" }

/-- A repository snapshot whose staged diffs are the added and deleted files
above. -/
def rAddDelW : RepoSnapshot :=
  { stagedDiffs := [dAddW, dDelW], unstagedDiffs := [], untracked_files := [] }

/-- The unstaged modification of `b.txt` used by the C5 witness. -/
def bdiffW : DiffObj :=
  { a_path := some "b.txt", b_path := some "b.txt",
    a_blob := some { text := some "old" }, b_blob := some { text := some "new" },
    change_type := "M" }

/-! ### Helper lemmas for the fetcher -/

theorem get_repo_commits_succ (srv : Int → Nat → GHResponse) (f : Nat) (p : Int) (pp : Nat)
    (st : GCState) :
    get_repo_commits srv (f + 1) p pp st =
      get_repo_commits_step srv (get_repo_commits srv f) p pp st := rfl

theorem catMap_nil {α β : Type} (f : α → List β) : catMap f [] = [] := rfl

theorem catMap_cons {α β : Type} (f : α → List β) (a : α) (l : List α) :
    catMap f (a :: l) = f a ++ catMap f l := rfl

theorem catMap_congr {α β : Type} {f g : α → List β} :
    ∀ {l : List α}, (∀ a ∈ l, f a = g a) → catMap f l = catMap g l
  | [], _ => rfl
  | a :: l, h => by
    rw [catMap_cons, catMap_cons, h a (List.mem_cons_self a l),
      catMap_congr (fun x hx => h x (List.mem_cons_of_mem a hx))]

theorem records_cons (e : CommitEntry) (es : List CommitEntry) :
    records (e :: es) = entryRecords e ++ records es := rfl

theorem processEntries_wf :
    ∀ (es : List CommitEntry), es.all entryWF = true →
      ∀ cl : List String, processEntries cl es = (cl ++ records es, none)
  | [], _, cl => by simp [processEntries, records, catMap]
  | e :: es, hwf, cl => by
    rw [List.all_cons, Bool.and_eq_true] at hwf
    obtain ⟨he, hes⟩ := hwf
    rw [records_cons]
    obtain ⟨c⟩ := e
    cases c with
    | none => simp [processEntries, entryRecords, processEntries_wf es hes cl]
    | some cd =>
      obtain ⟨msg, auth⟩ := cd
      cases auth with
      | none => simp [entryWF] at he
      | some a =>
        simp only [processEntries, entryRecords]
        rw [processEntries_wf es hes]
        simp [List.append_assoc]

theorem entryWF_of_full (e : CommitEntry) (h : entryFull e = true) : entryWF e = true := by
  unfold entryFull at h
  unfold entryWF
  match hc : e.commit with
  | none => rfl
  | some cd => rw [hc] at h; exact h

theorem all_entryWF_of_full (es : List CommitEntry) (h : es.all entryFull = true) :
    es.all entryWF = true := by
  rw [List.all_eq_true] at h ⊢
  exact fun e he => entryWF_of_full e (h e he)

theorem records_length_full :
    ∀ es : List CommitEntry, es.all entryFull = true → (records es).length = es.length
  | [], _ => rfl
  | e :: es, h => by
    rw [List.all_cons, Bool.and_eq_true] at h
    obtain ⟨he, hes⟩ := h
    rw [records_cons, List.length_append, List.length_cons,
      records_length_full es hes]
    obtain ⟨c⟩ := e
    cases c with
    | none => simp [entryFull] at he
    | some cd =>
      obtain ⟨msg, auth⟩ := cd
      cases auth with
      | none => simp [entryFull] at he
      | some a => simp [entryRecords, Nat.add_comm]

theorem pyRange_le {a b p : Int} (h : p ∈ pyRange a b) : a ≤ p := by
  unfold pyRange at h
  rw [List.mem_map] at h
  obtain ⟨i, _, rfl⟩ := h
  have hi : (0 : Int) ≤ Int.ofNat i := Int.ofNat_nonneg i
  omega

theorem fetch_fail (srv : Int → Nat → GHResponse) (f : Nat) (p : Int) (pp : Nat) (st : GCState)
    (h : ¬(srv p pp).statusCode = 200) :
    get_repo_commits srv (f + 1) p pp st =
      (Except.ok none, { st with pages := st.pages ++ [(p, pp)] }) := by
  rw [get_repo_commits_succ]
  unfold get_repo_commits_step
  rw [if_neg h]

theorem fetch_ok_nonfirst (srv : Int → Nat → GHResponse) (f : Nat) (p : Int) (pp : Nat)
    (st : GCState) (es : List CommitEntry)
    (hp : ¬p = 1)
    (h200 : (srv p pp).statusCode = 200)
    (hb : (srv p pp).body = GHBody.commits es)
    (hwf : es.all entryWF = true) :
    get_repo_commits srv (f + 1) p pp st =
      (Except.ok (some (st.commit_list.getD [] ++ records es)),
       { st with commit_list := some (st.commit_list.getD [] ++ records es),
                 pages := st.pages ++ [(p, pp)] }) := by
  rw [get_repo_commits_succ]
  unfold get_repo_commits_step
  rw [if_pos h200, hb]
  simp [processEntries_wf es hwf, if_neg hp]

theorem run_pages_nil (fetch : Int → GCState → Except PyError (Option (List String)) × GCState)
    (st : GCState) : run_pages fetch [] st = (Except.ok (), st) := rfl

theorem run_pages_cons_ok (fetch : Int → GCState → Except PyError (Option (List String)) × GCState)
    (p : Int) (ps : List Int) (st : GCState) (r : Option (List String)) (st1 : GCState)
    (h : fetch p st = (Except.ok r, st1)) :
    run_pages fetch (p :: ps) st = run_pages fetch ps st1 := by
  simp only [run_pages, h]

theorem run_pages_benign (srv : Int → Nat → GHResponse) (f pp : Nat) :
    ∀ (ps : List Int) (cl0 : List String) (np : Option (List Nat)) (pg : List (Int × Nat)),
      (∀ p ∈ ps, ¬p = 1 ∧ pageBenign srv pp p) →
      run_pages (fun p s => get_repo_commits srv (f + 1) p pp s) ps
          (GCState.mk (some cl0) np pg) =
        (Except.ok (),
         GCState.mk (some (cl0 ++ catMap (pageRecords srv pp) ps)) np
           (pg ++ ps.map (fun p => (p, pp))))
  | [], cl0, np, pg, _ => by simp [run_pages, catMap]
  | p :: ps, cl0, np, pg, hps => by
    obtain ⟨hp1, hben⟩ := hps p (List.mem_cons_self p ps)
    have hps' : ∀ q ∈ ps, ¬q = 1 ∧ pageBenign srv pp q :=
      fun q hq => hps q (List.mem_cons_of_mem p hq)
    by_cases h200 : (srv p pp).statusCode = 200
    · have hwfb : bodyWF (srv p pp).body = true := hben h200
      cases hbody : (srv p pp).body with
      | statusSentinel => rw [hbody] at hwfb; simp [bodyWF] at hwfb
      | commits es =>
        rw [hbody] at hwfb
        simp only [bodyWF] at hwfb
        rw [run_pages_cons_ok _ p ps _ _ _
          (fetch_ok_nonfirst srv f p pp (GCState.mk (some cl0) np pg) es hp1 h200 hbody hwfb)]
        show run_pages _ ps (GCState.mk (some (cl0 ++ records es)) np (pg ++ [(p, pp)])) = _
        rw [run_pages_benign srv f pp ps (cl0 ++ records es) np (pg ++ [(p, pp)]) hps']
        have hpr : pageRecords srv pp p = records es := by
          simp [pageRecords, h200, hbody, bodyRecords]
        simp [catMap_cons, hpr, List.append_assoc]
    · rw [run_pages_cons_ok _ p ps _ _ _
        (fetch_fail srv f p pp (GCState.mk (some cl0) np pg) h200)]
      show run_pages _ ps (GCState.mk (some cl0) np (pg ++ [(p, pp)])) = _
      rw [run_pages_benign srv f pp ps cl0 np (pg ++ [(p, pp)]) hps']
      have hpr : pageRecords srv pp p = [] := by simp [pageRecords, h200]
      simp [catMap_cons, hpr, List.append_assoc]

theorem fetch_page1_master (srv : Int → Nat → GHResponse) (pp f : Nat) (n l : Int)
    (es1 : List CommitEntry) (st0 : GCState)
    (h200 : (srv 1 pp).statusCode = 200)
    (hb1 : (srv 1 pp).body = GHBody.commits es1)
    (hwf1 : es1.all entryWF = true)
    (hlink : parse_link_header ((srv 1 pp).link) = some (n, l))
    (hn : 2 ≤ n)
    (hps : ∀ p ∈ pyRange n (l + 1), pageBenign srv pp p) :
    get_repo_commits srv (f + 2) 1 pp st0 =
      (Except.ok (some (st0.commit_list.getD [] ++ records es1 ++
          catMap (pageRecords srv pp) (pyRange n (l + 1)))),
       { commit_list := some (st0.commit_list.getD [] ++ records es1 ++
           catMap (pageRecords srv pp) (pyRange n (l + 1))),
         next_pages := some [],
         pages := st0.pages ++ (1, pp) :: (pyRange n (l + 1)).map (fun p => (p, pp)) }) := by
  have hcond : ∀ p ∈ pyRange n (l + 1), ¬p = 1 ∧ pageBenign srv pp p := by
    intro p hp
    have := pyRange_le hp
    exact ⟨by omega, hps p hp⟩
  cases st0 with
  | mk c0 np0 pg0 =>
    have hrun := run_pages_benign srv f pp (pyRange n (l + 1))
      (c0.getD [] ++ records es1) (some []) (pg0 ++ [(1, pp)]) hcond
    show get_repo_commits srv (f + 1 + 1) 1 pp _ = _
    rw [get_repo_commits_succ]
    unfold get_repo_commits_step
    rw [if_pos h200, hb1]
    simp only [GCState.mk.injEq]
    rw [show (GCState.mk c0 np0 (pg0 ++ [(1, pp)])).commit_list.getD [] = c0.getD [] from rfl]
    simp [processEntries_wf es1 hwf1, get_next_pages, hlink, hrun, List.append_assoc]

theorem fetch_page1_nolink (srv : Int → Nat → GHResponse) (pp f : Nat)
    (es1 : List CommitEntry) (st0 : GCState)
    (h200 : (srv 1 pp).statusCode = 200)
    (hb1 : (srv 1 pp).body = GHBody.commits es1)
    (hwf1 : es1.all entryWF = true)
    (hlink : parse_link_header ((srv 1 pp).link) = none) :
    get_repo_commits srv (f + 1) 1 pp st0 =
      (Except.ok (some (st0.commit_list.getD [] ++ records es1)),
       { commit_list := some (st0.commit_list.getD [] ++ records es1),
         next_pages := some [],
         pages := st0.pages ++ [(1, pp)] }) := by
  cases st0 with
  | mk c0 np0 pg0 =>
    rw [get_repo_commits_succ]
    unfold get_repo_commits_step
    rw [if_pos h200, hb1]
    simp [processEntries_wf es1 hwf1, get_next_pages, hlink, run_pages_nil]

theorem processEntries_err :
    ∀ (pre : List CommitEntry), pre.all entryWF = true →
      ∀ (e : CommitEntry) (cd : CommitData), e.commit = some cd → cd.author = none →
        ∀ (post : List CommitEntry) (cl : List String),
          processEntries cl (pre ++ e :: post) = (cl ++ records pre, some PyError.attributeError)
  | [], _, e, cd, hc, ha, post, cl => by
    obtain ⟨c⟩ := e
    replace hc : c = some cd := hc
    subst hc
    obtain ⟨msg, auth⟩ := cd
    replace ha : auth = none := ha
    subst ha
    simp [processEntries, records, catMap]
  | e1 :: pre, hwf, e, cd, hc, ha, post, cl => by
    rw [List.all_cons, Bool.and_eq_true] at hwf
    obtain ⟨he1, hpre⟩ := hwf
    rw [List.cons_append, records_cons]
    obtain ⟨c⟩ := e1
    cases c with
    | none =>
      simp only [processEntries, entryRecords]
      rw [processEntries_err pre hpre e cd hc ha post cl]
      simp
    | some cd1 =>
      obtain ⟨msg1, auth1⟩ := cd1
      cases auth1 with
      | none => simp [entryWF] at he1
      | some a1 =>
        simp only [processEntries, entryRecords]
        rw [processEntries_err pre hpre e cd hc ha post _]
        simp [List.append_assoc]

theorem records_nil_of_noCommit :
    ∀ es : List CommitEntry, es.all (fun e => e.commit.isNone) = true →
      records es = [] ∧ es.all entryWF = true
  | [], _ => ⟨rfl, rfl⟩
  | e :: es, h => by
    rw [List.all_cons, Bool.and_eq_true] at h
    obtain ⟨he, hes⟩ := h
    obtain ⟨hrec, hwf⟩ := records_nil_of_noCommit es hes
    obtain ⟨c⟩ := e
    cases c with
    | none => exact ⟨by simp [records_cons, entryRecords, hrec], by simp [entryWF, hwf]⟩
    | some cd => simp at he

/-! ### Claim theorems: the commit-history fetcher -/

/-- Claim C1: for every multi-page commit history, `get_repo_commits` starting
at page 1 on a fresh handler returns exactly one record per remote commit, in
page order, pages fetched in ascending page-number order from next_page
through last_page inclusive (witnessed by the request trace), with no
duplicates and no gaps (the result is exactly the concatenation of the
per-page records), reusing the same per-page size for every request. -/
theorem c1_multipage_fetch (srv : Int → Nat → GHResponse) (pp f : Nat) (n l : Int)
    (es1 : List CommitEntry) (es : Int → List CommitEntry)
    (h200 : (srv 1 pp).statusCode = 200)
    (hb1 : (srv 1 pp).body = GHBody.commits es1)
    (hf1 : es1.all entryFull = true)
    (hlink : parse_link_header ((srv 1 pp).link) = some (n, l))
    (hn : 2 ≤ n)
    (hps : ∀ p ∈ pyRange n (l + 1),
      (srv p pp).statusCode = 200 ∧ (srv p pp).body = GHBody.commits (es p) ∧
        (es p).all entryFull = true) :
    get_repo_commits srv (f + 2) 1 pp initGC =
      (Except.ok (some (records es1 ++ catMap (fun p => records (es p)) (pyRange n (l + 1)))),
       { commit_list := some (records es1 ++ catMap (fun p => records (es p)) (pyRange n (l + 1))),
         next_pages := some [],
         pages := (1, pp) :: (pyRange n (l + 1)).map (fun p => (p, pp)) })
    ∧ (records es1).length = es1.length
    ∧ ∀ p ∈ pyRange n (l + 1), (records (es p)).length = (es p).length := by
  have hben : ∀ p ∈ pyRange n (l + 1), pageBenign srv pp p := by
    intro p hp _
    obtain ⟨_, hbody, hfull⟩ := hps p hp
    rw [hbody]
    simp only [bodyWF]
    exact all_entryWF_of_full _ hfull
  have hmaster := fetch_page1_master srv pp f n l es1 initGC h200 hb1
    (all_entryWF_of_full es1 hf1) hlink hn hben
  have hconv : catMap (pageRecords srv pp) (pyRange n (l + 1)) =
      catMap (fun p => records (es p)) (pyRange n (l + 1)) := by
    refine catMap_congr ?_
    intro p hp
    obtain ⟨hs, hbody, _⟩ := hps p hp
    simp [pageRecords, hs, hbody, bodyRecords]
  rw [hconv] at hmaster
  refine ⟨?_, records_length_full es1 hf1, fun p hp => records_length_full _ (hps p hp).2.2⟩
  simpa [initGC] using hmaster

theorem c1_multipage_fetch_witness :
    get_repo_commits mockSrv3 2 1 10 initGC =
      (Except.ok (some (records (mkEntries "page1-" 10) ++
          catMap (fun p => records (mockEs3 p)) (pyRange 2 4))),
       { commit_list := some (records (mkEntries "page1-" 10) ++
           catMap (fun p => records (mockEs3 p)) (pyRange 2 4)),
         next_pages := some [],
         pages := (1, 10) :: (pyRange 2 4).map (fun p => (p, 10)) })
    ∧ (records (mkEntries "page1-" 10)).length = (mkEntries "page1-" 10).length
    ∧ ∀ p ∈ pyRange 2 4, (records (mockEs3 p)).length = (mockEs3 p).length :=
  c1_multipage_fetch mockSrv3 10 0 2 3 (mkEntries "page1-" 10) mockEs3
    rfl rfl rfl rfl (by decide) (by decide)

/-- Claim C3: each fetch-all invocation's commit accumulator is independent.
The repository-selection task builds a fresh `GithubCommit()` handler (so the
accumulator starts at `None`), and the list returned by the second of two
invocations is exactly the records of that invocation's own page responses
and its request trace contains only its own page fetch, whatever the first
invocation (`srv1`, arbitrary below) did: the commit list is rebuilt in full
on every repository selection. -/
theorem c3_fresh_accumulator (srv1 srv2 : Int → Nat → GHResponse) (f1 f : Nat)
    (es2 : List CommitEntry)
    (h200 : (srv2 1 10).statusCode = 200)
    (hb : (srv2 1 10).body = GHBody.commits es2)
    (hwf : es2.all entryWF = true)
    (hlink : parse_link_header ((srv2 1 10).link) = none) :
    (task_load_commits srv1 f1, task_load_commits srv2 (f + 1)).2 =
      (Except.ok (some (records es2)),
       { commit_list := some (records es2), next_pages := some [], pages := [(1, 10)] }) := by
  show task_load_commits srv2 (f + 1) = _
  unfold task_load_commits
  have h := fetch_page1_nolink srv2 10 f es2 initGC h200 hb hwf hlink
  simpa [initGC] using h

theorem c3_fresh_accumulator_witness :
    (task_load_commits mockSrv3 2, task_load_commits mockSrvOne 1).2 =
      (Except.ok (some (records (mkEntries "solo-" 3))),
       { commit_list := some (records (mkEntries "solo-" 3)), next_pages := some [],
         pages := [(1, 10)] }) :=
  c3_fresh_accumulator mockSrv3 mockSrvOne 2 0 (mkEntries "solo-" 3) rfl rfl rfl rfl

/-- Claim C6: when the page-1 response (with success status) carries the
"no commits" sentinel `status` field instead of a commit array,
`get_repo_commits` raises EmptyCommitHistory, issues no further page fetch
(the request trace gains exactly the page-1 request) and appends no record
(the commit list is untouched). -/
theorem c6_empty_history_error (srv : Int → Nat → GHResponse) (pp f : Nat) (st : GCState)
    (h200 : (srv 1 pp).statusCode = 200)
    (hb : (srv 1 pp).body = GHBody.statusSentinel) :
    get_repo_commits srv (f + 1) 1 pp st =
      (Except.error PyError.emptyCommitHistory,
       { st with pages := st.pages ++ [(1, pp)] }) := by
  rw [get_repo_commits_succ]
  unfold get_repo_commits_step
  rw [if_pos h200, hb]

theorem c6_empty_history_error_witness :
    get_repo_commits mockSrvEmpty 1 1 10 initGC =
      (Except.error PyError.emptyCommitHistory,
       { commit_list := none, next_pages := none, pages := [(1, 10)] }) :=
  c6_empty_history_error mockSrvEmpty 10 0 initGC rfl rfl

/-- Claim C9 (implicit): a commit-page response with non-success HTTP status
makes `get_repo_commits` fall off the end and return `None` (not a list, not
an error) and append nothing; and when such a response occurs on a page after
page 1 during pagination, the failure is silently ignored — the overall fetch
still succeeds, every remaining page of the range is still fetched (the trace
covers the whole range) and the failed page simply contributes no records. -/
theorem c9_http_failure (srv : Int → Nat → GHResponse) (pp f : Nat) (n l q : Int)
    (es1 : List CommitEntry) (st0 : GCState)
    (h200 : (srv 1 pp).statusCode = 200)
    (hb1 : (srv 1 pp).body = GHBody.commits es1)
    (hwf1 : es1.all entryWF = true)
    (hlink : parse_link_header ((srv 1 pp).link) = some (n, l))
    (hn : 2 ≤ n)
    (hps : ∀ p ∈ pyRange n (l + 1), pageBenign srv pp p)
    (_hq : q ∈ pyRange n (l + 1))
    (hq200 : ¬(srv q pp).statusCode = 200) :
    (∀ (srv2 : Int → Nat → GHResponse) (p : Int) (pp2 f2 : Nat) (st : GCState),
        ¬(srv2 p pp2).statusCode = 200 →
        get_repo_commits srv2 (f2 + 1) p pp2 st =
          (Except.ok none, { st with pages := st.pages ++ [(p, pp2)] }))
    ∧ get_repo_commits srv (f + 2) 1 pp st0 =
        (Except.ok (some (st0.commit_list.getD [] ++ records es1 ++
            catMap (pageRecords srv pp) (pyRange n (l + 1)))),
         { commit_list := some (st0.commit_list.getD [] ++ records es1 ++
             catMap (pageRecords srv pp) (pyRange n (l + 1))),
           next_pages := some [],
           pages := st0.pages ++ (1, pp) :: (pyRange n (l + 1)).map (fun p => (p, pp)) })
    ∧ pageRecords srv pp q = [] :=
  ⟨fun srv2 p pp2 f2 st h => fetch_fail srv2 f2 p pp2 st h,
   fetch_page1_master srv pp f n l es1 st0 h200 hb1 hwf1 hlink hn hps,
   by simp [pageRecords, hq200]⟩

theorem c9_http_failure_witness :
    (∀ (srv2 : Int → Nat → GHResponse) (p : Int) (pp2 f2 : Nat) (st : GCState),
        ¬(srv2 p pp2).statusCode = 200 →
        get_repo_commits srv2 (f2 + 1) p pp2 st =
          (Except.ok none, { st with pages := st.pages ++ [(p, pp2)] }))
    ∧ get_repo_commits mockSrvFail 2 1 10 initGC =
        (Except.ok (some (initGC.commit_list.getD [] ++ records (mkEntries "page1-" 10) ++
            catMap (pageRecords mockSrvFail 10) (pyRange 2 4))),
         { commit_list := some (initGC.commit_list.getD [] ++ records (mkEntries "page1-" 10) ++
             catMap (pageRecords mockSrvFail 10) (pyRange 2 4)),
           next_pages := some [],
           pages := initGC.pages ++ (1, 10) :: (pyRange 2 4).map (fun p => (p, 10)) })
    ∧ pageRecords mockSrvFail 10 2 = [] :=
  c9_http_failure mockSrvFail 10 0 2 3 2 (mkEntries "page1-" 10) initGC
    rfl rfl rfl rfl (by decide) (by decide) (by decide) (by decide)

/-- Claim C10 (implicit): a page entry whose `commit` sub-object is present
but lacks an `author` field makes `get_repo_commits` raise (the attribute
access on the absent author), keeping the records of the entries already
processed; whereas entries missing the `commit` sub-object itself are
skipped silently — the call succeeds and appends nothing for them. -/
theorem c10_missing_author_raises (srv : Int → Nat → GHResponse) (p : Int) (pp f : Nat)
    (st : GCState) (pre post : List CommitEntry) (e : CommitEntry) (cd : CommitData)
    (h200 : (srv p pp).statusCode = 200)
    (hb : (srv p pp).body = GHBody.commits (pre ++ e :: post))
    (hwf : pre.all entryWF = true)
    (hc : e.commit = some cd) (ha : cd.author = none)
    (srv2 : Int → Nat → GHResponse) (p2 : Int) (pp2 f2 : Nat) (st2 : GCState)
    (es2 : List CommitEntry)
    (h2 : (srv2 p2 pp2).statusCode = 200)
    (hb2 : (srv2 p2 pp2).body = GHBody.commits es2)
    (hskip : es2.all (fun e2 => e2.commit.isNone) = true)
    (hp2 : ¬p2 = 1) :
    get_repo_commits srv (f + 1) p pp st =
      (Except.error PyError.attributeError,
       { st with commit_list := some (st.commit_list.getD [] ++ records pre),
                 pages := st.pages ++ [(p, pp)] })
    ∧ get_repo_commits srv2 (f2 + 1) p2 pp2 st2 =
      (Except.ok (some (st2.commit_list.getD [])),
       { st2 with commit_list := some (st2.commit_list.getD []),
                  pages := st2.pages ++ [(p2, pp2)] }) := by
  constructor
  · rw [get_repo_commits_succ]
    unfold get_repo_commits_step
    rw [if_pos h200, hb]
    simp [processEntries_err pre hwf e cd hc ha post]
  · obtain ⟨hrec, hwf2⟩ := records_nil_of_noCommit es2 hskip
    have h := fetch_ok_nonfirst srv2 f2 p2 pp2 st2 es2 hp2 h2 hb2 hwf2
    rw [hrec] at h
    simpa using h

theorem c10_missing_author_raises_witness :
    get_repo_commits mockSrvNoAuthor 1 5 10 initGC =
      (Except.error PyError.attributeError,
       { initGC with
           commit_list := some (initGC.commit_list.getD [] ++
             records [mkEntry "2024-01-02T00:00:00Z" "ok"]),
           pages := initGC.pages ++ [(5, 10)] })
    ∧ get_repo_commits mockSrvNoCommit 1 7 10 initGC =
      (Except.ok (some (initGC.commit_list.getD [])),
       { initGC with commit_list := some (initGC.commit_list.getD []),
                     pages := initGC.pages ++ [(7, 10)] }) :=
  c10_missing_author_raises mockSrvNoAuthor 5 10 0 initGC
    [mkEntry "2024-01-02T00:00:00Z" "ok"] [] authorlessEntry
    { message := some "orphan", author := none }
    rfl rfl rfl rfl rfl
    mockSrvNoCommit 7 10 0 initGC [{ commit := none }, { commit := none }]
    rfl rfl rfl (by decide)

/-! ### Claim theorems: the local repository inspector -/

theorem countFile_pos_any {acc : List FileEntry} {fp : String} (h : 0 < countFile acc fp) :
    acc.any (fun f => f.file_name == some fp) = true := by
  unfold countFile at h
  rw [List.length_pos] at h
  obtain ⟨f, hf⟩ := List.exists_mem_of_ne_nil _ h
  rw [List.mem_filter] at hf
  rw [List.any_eq_true]
  exact ⟨f, hf.1, hf.2⟩

theorem addUntracked_count :
    ∀ (ut : List String) (acc : List FileEntry) (fp : String),
      0 < countFile acc fp → countFile (addUntracked ut acc) fp = countFile acc fp
  | [], _, _, _ => rfl
  | g :: rest, acc, fp, hpos => by
    unfold addUntracked
    by_cases hany : acc.any (fun f => f.file_name == some g) = true
    · rw [if_pos hany]
      exact addUntracked_count rest acc fp hpos
    · rw [if_neg hany]
      by_cases hgf : g = fp
      · subst hgf
        exact absurd (countFile_pos_any hpos) hany
      · have hone : countFile (acc ++ [{ file_name := some g, change_type := "A" }]) fp =
            countFile acc fp := by
          unfold countFile
          rw [List.filter_append]
          simp [hgf]
        rw [addUntracked_count rest _ fp (by rw [hone]; exact hpos), hone]

/-- Claim C5: on a repository with one new untracked file `a.txt` and one
modified-but-unstaged file `b.txt`, `get_status` returns `staged = []` and an
unstaged list with exactly one entry per path: `b.txt` with the Modified
change type "M" and `a.txt` with the marker "A" that `get_status` attaches to
untracked files; and (second conjunct) an untracked file already present in
the unstaged list as an unstaged modification is never duplicated — its entry
count is unchanged by the untracked loop. -/
theorem c5_status_untracked_and_modified (bdiff : DiffObj)
    (hpath : bdiff.a_path = some "b.txt") (hct : bdiff.change_type = "M") :
    (get_status { stagedDiffs := [], unstagedDiffs := [bdiff], untracked_files := ["a.txt"] }).1 =
      { staged := [],
        unstaged := [{ file_name := some "b.txt", change_type := "M" },
                     { file_name := some "a.txt", change_type := "A" }] }
    ∧ ∀ (r : RepoSnapshot) (fp : String), fp ∈ r.untracked_files →
        0 < countFile (r.unstagedDiffs.map toEntry) fp →
        countFile ((get_status r).1.unstaged) fp = countFile (r.unstagedDiffs.map toEntry) fp := by
  constructor
  · simp [get_status, addUntracked, toEntry, hpath, hct]
  · intro r fp _ hpos
    exact addUntracked_count r.untracked_files _ fp hpos

theorem c5_status_untracked_and_modified_witness :
    (get_status { stagedDiffs := [], unstagedDiffs := [bdiffW], untracked_files := ["a.txt"] }).1 =
      { staged := [],
        unstaged := [{ file_name := some "b.txt", change_type := "M" },
                     { file_name := some "a.txt", change_type := "A" }] }
    ∧ ∀ (r : RepoSnapshot) (fp : String), fp ∈ r.untracked_files →
        0 < countFile (r.unstagedDiffs.map toEntry) fp →
        countFile ((get_status r).1.unstaged) fp = countFile (r.unstagedDiffs.map toEntry) fp :=
  c5_status_untracked_and_modified bdiffW rfl rfl

/-- Claim C4: over the staged diffs captured by the most recent `get_status`,
`combine_all_blobs` maps a newly added staged file (no before blob, new
content CA) to the entry (path, ("", CA)) and a staged deletion (old content
CD, no after blob) to (path, (CD, "")). -/
theorem c4_staged_add_delete (r : RepoSnapshot) (dAdd dDel : DiffObj) (pA pD CA CD : String)
    (hs : r.stagedDiffs = [dAdd, dDel])
    (haB : dAdd.a_blob = none) (hbB : dAdd.b_blob = some { text := some CA })
    (hpA : pathKey dAdd = some pA)
    (hdA : dDel.a_blob = some { text := some CD }) (hdB : dDel.b_blob = none)
    (hpD : pathKey dDel = some pD)
    (hne : ¬pA = pD) :
    combine_all_blobs (get_status r).2 = [(pA, ("", CA)), (pD, (CD, ""))] := by
  have h2 : (get_status r).2 = [dAdd, dDel] := by simp [get_status, hs]
  rw [h2]
  unfold combine_all_blobs
  simp [hpA, hpD, decode_blob, blobText, haB, hbB, hdA, hdB, dictInsert, if_neg hne]

theorem c4_staged_add_delete_witness :
    combine_all_blobs (get_status rAddDelW).2 =
      [("c.txt", ("", "new content")), ("d.txt", ("old content", ""))] :=
  c4_staged_add_delete rAddDelW dAddW dDelW "c.txt" "d.txt" "new content" "old content"
    rfl rfl rfl rfl rfl rfl rfl (by decide)

/-- Claim C8, counterexample: a staged diff with no usable path does not make
`combine_all_blobs` fail validation — the live gui-module code silently skips
it and returns a (here empty) mapping, while the claim's own description
(`build_staged_diff_set_claim`, which matches the abandoned handler-module
variant) would fail. -/
theorem c8_counterexample :
    combine_all_blobs [noPathDiff] = [] ∧ build_staged_diff_set_claim [noPathDiff] = none :=
  ⟨rfl, rfl⟩

/-- Claim C8, amended: entries of diffs with unretrievable blobs are still
keyed by the destination path, or the source path when the destination is
absent (or empty), with before/after both decoded to ""; a diff with neither
path available is silently skipped — `combine_all_blobs` never fails
validation. -/
theorem c8_path_fallback :
    (∀ (d : DiffObj) (p : String), d.b_path = some p → ¬p = "" → pathKey d = some p)
    ∧ (∀ (d : DiffObj) (p : String), (d.b_path = none ∨ d.b_path = some "") →
        d.a_path = some p → ¬p = "" → pathKey d = some p)
    ∧ (∀ (d : DiffObj) (k : String), pathKey d = some k →
        combine_all_blobs [d] = [(k, decode_blob d)])
    ∧ (∀ d : DiffObj, d.a_blob = none → d.b_blob = none → decode_blob d = ("", ""))
    ∧ (∀ (d : DiffObj) (ds : List DiffObj), pathKey d = none →
        combine_all_blobs (d :: ds) = combine_all_blobs ds) := by
  refine ⟨?_, ?_, ?_, ?_, ?_⟩
  · intro d p hb hp
    unfold pathKey pyTruthy
    rw [hb]
    simp [if_neg hp]
  · intro d p hb ha hp
    unfold pathKey pyTruthy
    rw [ha]
    cases hb with
    | inl h => rw [h]; simp [if_neg hp]
    | inr h => rw [h]; simp [if_neg hp]
  · intro d k hk
    unfold combine_all_blobs
    simp [hk, dictInsert]
  · intro d h1 h2
    unfold decode_blob blobText
    rw [h1, h2]
  · intro d ds h
    unfold combine_all_blobs
    simp only [List.foldl]
    rw [h]

theorem c8_path_fallback_witness :
    pathKey diffDestW = some "x"
    ∧ pathKey diffSrcW = some "y"
    ∧ combine_all_blobs [diffDestW] = [("x", decode_blob diffDestW)]
    ∧ decode_blob diffDestW = ("", "")
    ∧ combine_all_blobs (noPathDiff :: []) = combine_all_blobs [] :=
  ⟨c8_path_fallback.1 diffDestW "x" rfl (by decide),
   c8_path_fallback.2.1 diffSrcW "y" (Or.inl rfl) rfl (by decide),
   c8_path_fallback.2.2.1 diffDestW "x" rfl,
   c8_path_fallback.2.2.2.1 diffDestW rfl rfl,
   c8_path_fallback.2.2.2.2 noPathDiff [] rfl⟩

/-! ### Lemmas on the regex scan and the header strings -/

theorem data_append (a b : String) : (a ++ b).data = a.data ++ b.data := by
  cases a with
  | mk la =>
    cases b with
    | mk lb => rfl

theorem data_asString (s : String) : s.data.asString = s := by
  cases s with
  | mk l => rfl

theorem data_eq_nil_iff (s : String) : s.data = [] ↔ s = "" := by
  cases s with
  | mk d =>
    constructor
    · intro h
      exact congrArg String.mk h
    · intro h
      rw [h]

theorem takeWhile_all_append {p : Char → Bool} :
    ∀ (l : List Char), (∀ c ∈ l, p c = true) → ∀ (x : Char), p x = false → ∀ (r : List Char),
      (l ++ x :: r).takeWhile p = l ∧ (l ++ x :: r).dropWhile p = x :: r
  | [], _, x, hx, r => by simp [List.takeWhile_cons, List.dropWhile_cons, hx]
  | c :: l, hl, x, hx, r => by
    have hc : p c = true := hl c (List.mem_cons_self c l)
    have hrest := takeWhile_all_append l (fun d hd => hl d (List.mem_cons_of_mem c hd)) x hx r
    simp [List.takeWhile_cons, List.dropWhile_cons, hc, hrest.1, hrest.2]

theorem scanMatch_lt : ∀ {cs : List Char} {u r : String} {rem : List Char},
    scanMatch cs = some (u, r, rem) → rem.length < cs.length := by
  intro cs u r rem h
  unfold scanMatch at h
  split at h
  · next cs2 =>
    split at h
    · next u0 us cs3 heqt heqd =>
      have hd1 : ('>' :: ';' :: cs3).length ≤ cs2.length := by
        rw [← heqd]
        exact (List.dropWhile_suffix _).length_le
      split at h
      · next cs4 heqs =>
        have hd2 : ('r' :: 'e' :: 'l' :: '=' :: '"' :: cs4).length ≤ cs3.length := by
          rw [← heqs]
          exact (List.dropWhile_suffix _).length_le
        split at h
        · next r0 rs cs5 heqt2 heqd2 =>
          have hd3 : ('"' :: cs5).length ≤ cs4.length := by
            rw [← heqd2]
            exact (List.dropWhile_suffix _).length_le
          injection h with h1
          injection h1 with h2 h3
          injection h3 with h4 h5
          subst h5
          simp only [List.length_cons] at hd1 hd2 hd3 ⊢
          omega
        · simp at h
      · simp at h
    · simp at h
  · simp at h

theorem findAllGo_of_le : ∀ (f : Nat), ∀ (cs : List Char), cs.length ≤ f →
    findAllGo f cs = findAllGo cs.length cs := by
  intro f
  induction f using Nat.strong_induction_on with
  | _ f ih =>
    intro cs hle
    cases cs with
    | nil => cases f <;> rfl
    | cons c cs1 =>
      have h1 : cs1.length + 1 ≤ f := by simpa using hle
      obtain ⟨f1, rfl⟩ : ∃ f1, f = f1 + 1 := ⟨f - 1, by omega⟩
      show findAllGo (f1 + 1) (c :: cs1) = findAllGo (cs1.length + 1) (c :: cs1)
      cases hscan : scanMatch (c :: cs1) with
      | none =>
        simp only [findAllGo, hscan]
        rw [ih f1 (by omega) cs1 (by omega)]
      | some res =>
        obtain ⟨u, r, rem⟩ := res
        have hlt : rem.length < cs1.length + 1 := scanMatch_lt hscan
        simp only [findAllGo, hscan]
        rw [ih f1 (by omega) rem (by omega), ih cs1.length (by omega) rem (by omega)]

theorem findAllChars_cons_none {c : Char} {cs : List Char} (h : scanMatch (c :: cs) = none) :
    findAllChars (c :: cs) = findAllChars cs := by
  unfold findAllChars
  show findAllGo (cs.length + 1) (c :: cs) = _
  simp only [findAllGo, h]

theorem findAllChars_cons_some {c : Char} {cs : List Char} {u r : String} {rem : List Char}
    (h : scanMatch (c :: cs) = some (u, r, rem)) :
    findAllChars (c :: cs) = (u, r) :: findAllChars rem := by
  unfold findAllChars
  show findAllGo (cs.length + 1) (c :: cs) = _
  simp only [findAllGo, h]
  have hlt : rem.length < cs.length + 1 := scanMatch_lt h
  rw [findAllGo_of_le cs.length rem (by omega)]

theorem scanMatch_seg (u rel : String) (rest : List Char)
    (hu : u.data ≠ []) (hu2 : ∀ c ∈ u.data, c ≠ '>')
    (hr : rel.data ≠ []) (hr2 : ∀ c ∈ rel.data, c ≠ '"') :
    scanMatch ('<' :: (u.data ++ '>' :: ';' :: ' ' :: 'r' :: 'e' :: 'l' :: '=' :: '"' ::
        (rel.data ++ '"' :: rest))) = some (u, rel, rest) := by
  cases hud : u.data with
  | nil => exact absurd hud hu
  | cons u0 us =>
    cases hrd : rel.data with
    | nil => exact absurd hrd hr
    | cons r0 rs =>
      have hpu : ∀ c ∈ u0 :: us, (fun c => c != '>') c = true := by
        intro c hc
        simp only [bne_iff_ne]
        exact hu2 c (hud ▸ hc)
      have hpr : ∀ c ∈ r0 :: rs, (fun c => c != '"') c = true := by
        intro c hc
        simp only [bne_iff_ne]
        exact hr2 c (hrd ▸ hc)
      have ht1 := takeWhile_all_append (u0 :: us) hpu '>' rfl
        (';' :: ' ' :: 'r' :: 'e' :: 'l' :: '=' :: '"' :: ((r0 :: rs) ++ '"' :: rest))
      have ht2 := takeWhile_all_append (r0 :: rs) hpr '"' rfl rest
      have hsp : List.dropWhile pyIsSpace
          (' ' :: 'r' :: 'e' :: 'l' :: '=' :: '"' :: ((r0 :: rs) ++ '"' :: rest)) =
          'r' :: 'e' :: 'l' :: '=' :: '"' :: ((r0 :: rs) ++ '"' :: rest) := rfl
      simp only [scanMatch, ht1.1, ht1.2, hsp, ht2.1, ht2.2]
      rw [← hud, ← hrd, data_asString, data_asString]

theorem findAll_linkSeg (u rel : String) (rest : List Char)
    (hu : u ≠ "") (hu2 : ∀ c ∈ u.data, c ≠ '>')
    (hr : rel ≠ "") (hr2 : ∀ c ∈ rel.data, c ≠ '"') :
    findAllChars ((linkSeg u rel).data ++ rest) = (u, rel) :: findAllChars rest := by
  have hud : u.data ≠ [] := fun h => hu ((data_eq_nil_iff u).mp h)
  have hrd : rel.data ≠ [] := fun h => hr ((data_eq_nil_iff rel).mp h)
  have hdata : (linkSeg u rel).data ++ rest =
      '<' :: (u.data ++ '>' :: ';' :: ' ' :: 'r' :: 'e' :: 'l' :: '=' :: '"' ::
        (rel.data ++ '"' :: rest)) := by
    simp [linkSeg, data_append, List.append_assoc]
  rw [hdata]
  rw [findAllChars_cons_some (scanMatch_seg u rel rest hud hu2 hrd hr2)]

theorem findAllChars_comma_space (cs : List Char) :
    findAllChars (',' :: ' ' :: cs) = findAllChars cs := by
  rw [@findAllChars_cons_none ',' (' ' :: cs) rfl, @findAllChars_cons_none ' ' cs rfl]

theorem comma_space_cons (l : List Char) : ([',', ' '] : List Char) ++ l = ',' :: ' ' :: l := rfl

theorem findAll_mkHeader2 (u1 u2 : String)
    (h1 : u1 ≠ "") (h12 : ∀ c ∈ u1.data, c ≠ '>')
    (h2 : u2 ≠ "") (h22 : ∀ c ∈ u2.data, c ≠ '>') :
    findAll (mkHeader2 u1 u2) = [(u1, "next"), (u2, "last")] := by
  unfold findAll mkHeader2
  rw [data_append, data_append]
  rw [show (", " : String).data = [',', ' '] from rfl]
  rw [List.append_assoc, comma_space_cons]
  rw [findAll_linkSeg u1 "next" _ h1 h12 (by decide) (by decide)]
  rw [findAllChars_comma_space]
  rw [← List.append_nil ((linkSeg u2 "last").data)]
  rw [findAll_linkSeg u2 "last" [] h2 h22 (by decide) (by decide)]
  rfl

theorem findAll_mkHeader3 (u1 u2 u3 : String)
    (h1 : u1 ≠ "") (h12 : ∀ c ∈ u1.data, c ≠ '>')
    (h2 : u2 ≠ "") (h22 : ∀ c ∈ u2.data, c ≠ '>')
    (h3 : u3 ≠ "") (h32 : ∀ c ∈ u3.data, c ≠ '>') :
    findAll (mkHeader3 u1 u2 u3) = [(u1, "next"), (u2, "next"), (u3, "last")] := by
  unfold findAll mkHeader3
  rw [data_append, data_append, data_append, data_append]
  rw [show (", " : String).data = [',', ' '] from rfl]
  simp only [List.append_assoc, comma_space_cons, List.cons_append, List.nil_append]
  rw [findAll_linkSeg u1 "next" _ h1 h12 (by decide) (by decide)]
  rw [findAllChars_comma_space]
  rw [findAll_linkSeg u2 "next" _ h2 h22 (by decide) (by decide)]
  rw [findAllChars_comma_space]
  rw [← List.append_nil ((linkSeg u3 "last").data)]
  rw [findAll_linkSeg u3 "last" [] h3 h32 (by decide) (by decide)]
  rfl

theorem linkSeg_ne_empty (u rel : String) : ¬linkSeg u rel = "" := by
  intro h
  have hd : (linkSeg u rel).data = [] := by rw [h]
  simp only [linkSeg, data_append] at hd
  simp at hd

theorem header2_ne_empty (u1 u2 : String) : ¬mkHeader2 u1 u2 = "" := by
  intro h
  have hd : (mkHeader2 u1 u2).data = [] := by rw [h]
  simp only [mkHeader2, linkSeg, data_append] at hd
  simp at hd

theorem header3_ne_empty (u1 u2 u3 : String) : ¬mkHeader3 u1 u2 u3 = "" := by
  intro h
  have hd : (mkHeader3 u1 u2 u3).data = [] := by rw [h]
  simp only [mkHeader3, linkSeg, data_append] at hd
  simp at hd

theorem parse_mkHeader2 (u1 u2 : String)
    (h1 : u1 ≠ "") (h12 : ∀ c ∈ u1.data, c ≠ '>')
    (h2 : u2 ≠ "") (h22 : ∀ c ∈ u2.data, c ≠ '>') :
    parse_link_header (some (mkHeader2 u1 u2)) =
      match get_page_number u1, get_page_number u2 with
      | some a, some b => some (a, b)
      | _, _ => none := by
  simp only [parse_link_header]
  rw [if_neg (header2_ne_empty u1 u2)]
  rw [findAll_mkHeader2 u1 u2 h1 h12 h2 h22]
  simp [relLinks, h1, h2]

theorem parse_mkHeader3 (u1 u2 u3 : String)
    (h1 : u1 ≠ "") (h12 : ∀ c ∈ u1.data, c ≠ '>')
    (h2 : u2 ≠ "") (h22 : ∀ c ∈ u2.data, c ≠ '>')
    (h3 : u3 ≠ "") (h32 : ∀ c ∈ u3.data, c ≠ '>') :
    parse_link_header (some (mkHeader3 u1 u2 u3)) =
      match get_page_number u2, get_page_number u3 with
      | some a, some b => some (a, b)
      | _, _ => none := by
  simp only [parse_link_header]
  rw [if_neg (header3_ne_empty u1 u2 u3)]
  rw [findAll_mkHeader3 u1 u2 u3 h1 h12 h2 h22 h3 h32]
  simp [relLinks, h2, h3]

theorem parse_onlyNext (u : String) (hu : u ≠ "") (hu2 : ∀ c ∈ u.data, c ≠ '>') :
    parse_link_header (some (linkSeg u "next")) = none := by
  simp only [parse_link_header]
  rw [if_neg (linkSeg_ne_empty u "next")]
  have hfa : findAll (linkSeg u "next") = [(u, "next")] := by
    unfold findAll
    rw [← List.append_nil ((linkSeg u "next").data)]
    rw [findAll_linkSeg u "next" [] hu hu2 (by decide) (by decide)]
    rfl
  rw [hfa]
  simp [relLinks]

/-! ### Claim theorems: the Link-header parser -/

/-- Claim C2: for every header `<urlA>; rel="next", <urlB>; rel="last"` whose
URLs carry integer `page` query parameters, `_parse_link_header` returns
exactly that pair of integers; and when the same relation occurs more than
once (here `next` twice), the URL of the last occurrence is the one whose
page number is used. -/
theorem c2_parse_two_relation_header (uA uB uC : String) (nA nB nC : Int)
    (hA : uA ≠ "") (hA2 : ∀ c ∈ uA.data, c ≠ '>')
    (hB : uB ≠ "") (hB2 : ∀ c ∈ uB.data, c ≠ '>')
    (hC : uC ≠ "") (hC2 : ∀ c ∈ uC.data, c ≠ '>')
    (hpA : get_page_number uA = some nA)
    (hpB : get_page_number uB = some nB)
    (hpC : get_page_number uC = some nC) :
    parse_link_header (some (mkHeader2 uA uB)) = some (nA, nB)
    ∧ parse_link_header (some (mkHeader3 uA uB uC)) = some (nB, nC) := by
  constructor
  · rw [parse_mkHeader2 uA uB hA hA2 hB hB2, hpA, hpB]
  · rw [parse_mkHeader3 uA uB uC hA hA2 hB hB2 hC hC2, hpB, hpC]

theorem c2_parse_two_relation_header_witness :
    parse_link_header (some (mkHeader2
      "https://api.github.com/repositories/1/commits?per_page=10&page=2"
      "https://api.github.com/repositories/1/commits?per_page=10&page=3")) = some (2, 3)
    ∧ parse_link_header (some (mkHeader3
      "https://api.github.com/repositories/1/commits?per_page=10&page=2"
      "https://api.github.com/repositories/1/commits?per_page=10&page=3"
      "https://api.github.com/repositories/1/commits?per_page=10&page=7")) = some (3, 7) :=
  c2_parse_two_relation_header
    "https://api.github.com/repositories/1/commits?per_page=10&page=2"
    "https://api.github.com/repositories/1/commits?per_page=10&page=3"
    "https://api.github.com/repositories/1/commits?per_page=10&page=7"
    2 3 7 (by decide) (by decide) (by decide) (by decide) (by decide) (by decide)
    rfl rfl rfl

/-- Claim C7: `_parse_link_header` returns absent (never an error) when the
header is absent; when it is empty; when it carries only a `rel="next"`
relation; and when the `page` query parameter is missing or non-numeric on
either of the two URLs (`get_page_number v = none` covers both, and the two
final conjuncts evaluate it on a URL without a page parameter and on one
with a non-numeric page). -/
theorem c7_parse_absent_cases (u v w : String)
    (hu : u ≠ "") (hu2 : ∀ c ∈ u.data, c ≠ '>')
    (hv : v ≠ "") (hv2 : ∀ c ∈ v.data, c ≠ '>')
    (hw : w ≠ "") (hw2 : ∀ c ∈ w.data, c ≠ '>')
    (hvp : get_page_number v = none) :
    parse_link_header none = none
    ∧ parse_link_header (some "") = none
    ∧ parse_link_header (some (linkSeg u "next")) = none
    ∧ parse_link_header (some (mkHeader2 v w)) = none
    ∧ parse_link_header (some (mkHeader2 w v)) = none
    ∧ get_page_number "https://api.github.com/repos/o/r/commits?per_page=10" = none
    ∧ get_page_number "https://api.github.com/repos/o/r/commits?page=abc" = none := by
  refine ⟨rfl, rfl, parse_onlyNext u hu hu2, ?_, ?_, rfl, rfl⟩
  · rw [parse_mkHeader2 v w hv hv2 hw hw2, hvp]
  · rw [parse_mkHeader2 w v hw hw2 hv hv2, hvp]
    cases get_page_number w <;> rfl

theorem c7_parse_absent_cases_witness :
    parse_link_header none = none
    ∧ parse_link_header (some "") = none
    ∧ parse_link_header (some (linkSeg "https://h/c?page=2" "next")) = none
    ∧ parse_link_header (some (mkHeader2 "https://h/c?x=1" "https://h/c?page=4")) = none
    ∧ parse_link_header (some (mkHeader2 "https://h/c?page=4" "https://h/c?x=1")) = none
    ∧ get_page_number "https://api.github.com/repos/o/r/commits?per_page=10" = none
    ∧ get_page_number "https://api.github.com/repos/o/r/commits?page=abc" = none :=
  c7_parse_absent_cases "https://h/c?page=2" "https://h/c?x=1" "https://h/c?page=4"
    (by decide) (by decide) (by decide) (by decide) (by decide) (by decide) rfl

end GitAnalyzer
